import Mathlib

/-
Verification development for the medical-insurance data pipeline
(data_loader.py : MedicalInsuranceDataLoader, data_analyzer.py :
MedicalInsuranceAnalyzer).

Part 1 embeds the Cleaner (clean_data, create_labeled_data) over exact
rationals: a raw cell is either a numeric value, the "?" sentinel, an
unparseable token, or a null.  Part 2 embeds the Analyzer
(correlation_analysis, statistical_tests, generate_insights) over the
reals; float NaN and infinities are modelled explicitly.
-/

namespace Pipeline

/-- A raw cell of the input table.  `num q` is any numeric value
(pandas parses numeric strings the same way), `sentinel` is the "?"
marker, `junk s` is a non-numeric, non-sentinel token (its string
does not contain a question mark), `null` is a missing value (NaN). -/
inductive RawVal where
  | num (q : ℚ)
  | sentinel
  | junk (s : String)
  | null
  deriving DecidableEq, Repr

/-- Truncation toward zero, as numpy astype(int) does on floats. -/
def truncQ (q : ℚ) : ℤ := if q < 0 then -(⌊-q⌋) else ⌊q⌋

/-- pd.to_numeric(errors=coerce): numbers parse, everything else
becomes NaN (here: none). -/
def toNum? : RawVal → Option ℚ
  | .num q => some q
  | _ => none

/-- astype(int) on a column cell after to_numeric: a number truncates,
a NaN raises (IntCastingNaNError). -/
def castIntOpt : Option ℚ → Except Unit ℤ
  | some q => .ok (truncQ q)
  | none => .error ()

/-- astype(int) directly on a raw object cell: numeric values convert,
anything else raises ValueError. -/
def castIntRaw : RawVal → Except Unit ℤ
  | .num q => .ok (truncQ q)
  | _ => .error ()

/-- Ascending-sorted list median, pandas style: middle element for odd
length, average of the two middle elements for even length; none (NaN)
for the empty list. -/
def medianSorted (l : List ℚ) : Option ℚ :=
  if l = [] then none
  else if l.length % 2 = 1 then l.get? (l.length / 2)
  else do
    let a ← l.get? (l.length / 2 - 1)
    let b ← l.get? (l.length / 2)
    pure ((a + b) / 2)

/-- pandas Series.median: sort the non-null values, take the middle. -/
def medianQ (l : List ℚ) : Option ℚ :=
  medianSorted (l.insertionSort (fun a b => a ≤ b))

/-- The number of age cells that fail to parse, i.e. the missing count
reported by clean_data after pd.to_numeric(errors=coerce). -/
def ageMissing (col : List RawVal) : ℕ :=
  ((col.map toNum?).filter (fun o => o = none)).length

/-- The age column after to_numeric and conditional median imputation
(lines 121-126 of data_loader.py).  The median is taken over exactly
the successfully parsed values, before any replacement. -/
def ageFilled (col : List RawVal) : List (Option ℚ) :=
  let parsed := col.map toNum?
  if ageMissing col > 0 then
    match medianQ (parsed.filterMap id) with
    | some m => parsed.map (fun o => some (o.getD m))
    | none => parsed
  else parsed

/-- The full age pipeline: to_numeric, median imputation, astype(int). -/
def ageClean (col : List RawVal) : Except Unit (List ℤ) :=
  (ageFilled col).mapM castIntOpt

/-- A total order used by pandas when it sorts the modal values of a
column: numbers ascending, then strings; the sentinel sorts last.
(pandas can only end up indexing a sorted mixed list when no sentinel
is among the modes; on all-numeric modes this is the numeric order.) -/
def rvLE : RawVal → RawVal → Bool
  | .num a, .num b => a ≤ b
  | .num _, _ => true
  | .junk _, .num _ => false
  | .junk a, .junk b => decide (a ≤ b)
  | .junk _, _ => true
  | .sentinel, .null => true
  | .sentinel, .sentinel => true
  | .sentinel, _ => false
  | .null, .null => true
  | .null, _ => false

/-- Does the printed form of the value contain a question mark?  This
is the membership test of line 130 of data_loader.py,
      if chr(63) not in str(mode().values) ,
on one modal value. -/
def containsQ : RawVal → Bool
  | .sentinel => true
  | .junk s => s.contains '?'
  | _ => false

/-- The distinct non-null values of a column (Series.mode skips NaN). -/
def distinctVals (col : List RawVal) : List RawVal :=
  (col.filter (fun v => v ≠ RawVal.null)).dedup

/-- The largest multiplicity among the non-null values. -/
def maxCount (col : List RawVal) : ℕ :=
  ((distinctVals col).map (fun v => col.count v)).foldr max 0

/-- The propositional form of the value order, for sorting. -/
def rvRel (a b : RawVal) : Prop := rvLE a b = true

instance : DecidableRel rvRel := fun a b => by unfold rvRel; infer_instance

/-- Series.mode of the full column: every non-null value of maximal
multiplicity, in sorted order. -/
def modeList (col : List RawVal) : List RawVal :=
  ((distinctVals col).filter (fun v => col.count v = maxCount col)).insertionSort rvRel

instance : IsTotal RawVal rvRel := by
  constructor
  intro a b
  cases a <;> cases b <;> simp [rvRel, rvLE] <;> exact le_total _ _

instance : IsTrans RawVal rvRel := by
  constructor
  intro a b c hab hbc
  cases a <;> cases b <;> cases c <;>
    simp_all [rvRel, rvLE] <;> exact le_trans hab hbc

/-- The fill value of line 130 of data_loader.py: the string 0 when a
question mark occurs among the modal values, otherwise the first modal
value; indexing an empty mode list raises IndexError. -/
def smokerFill (col : List RawVal) : Except Unit RawVal :=
  if (modeList col).any containsQ then .ok (.num 0)
  else
    match modeList col with
    | [] => .error ()
    | v :: _ => .ok v

/-- pd.to_numeric (strict) followed by astype(int) on one smoker cell:
numbers truncate, a remaining token or null raises. -/
def castSmoker : RawVal → Except Unit ℤ
  | .num q => .ok (truncQ q)
  | _ => .error ()

/-- The smoker pipeline of lines 129-132 and 139 of data_loader.py:
compute the fill value from the full raw column, replace each sentinel
by it, then convert to integers. -/
def smokerClean (col : List RawVal) : Except Unit (List ℤ) := do
  let f ← smokerFill col
  (col.map (fun v => if v = RawVal.sentinel then f else v)).mapM castSmoker

/-- Follows the words of the specification, not the code: the modal
values of the non-sentinel smoker entries. -/
def specNonSentinelMode (col : List RawVal) : List RawVal :=
  modeList (col.filter (fun v => v ≠ RawVal.sentinel))

/-- A raw table: the seven positional columns of the dataset. -/
structure RawTable where
  age : List RawVal
  sex : List RawVal
  bmi : List RawVal
  children : List RawVal
  smoker : List RawVal
  region : List RawVal
  charges : List RawVal

/-- The output of clean_data: age, sex, children, smoker, region are
integer columns; bmi and charges are left exactly as they came in. -/
structure CleanTable where
  age : List ℤ
  sex : List ℤ
  bmi : List RawVal
  children : List ℤ
  smoker : List ℤ
  region : List ℤ
  charges : List RawVal
  deriving DecidableEq, Repr

/-- clean_data on a present raw table (lines 117-143): clean age,
clean smoker, cast sex, children, region to integers; bmi and charges
are copied through untouched.  Any cast failure propagates as a
DataQualityError. -/
def cleanTable (r : RawTable) : Except Unit CleanTable := do
  let a ← ageClean r.age
  let sm ← smokerClean r.smoker
  let sx ← r.sex.mapM castIntRaw
  let ch ← r.children.mapM castIntRaw
  let rg ← r.region.mapM castIntRaw
  pure ⟨a, sx, r.bmi, ch, sm, rg, r.charges⟩

deriving instance DecidableEq for Except

/-- Sequencing errors of the loader. -/
inductive LoaderError where
  | notLoaded
  | notCleaned
  | dataQuality
  deriving DecidableEq, Repr

/-- The mutable state of MedicalInsuranceDataLoader. -/
structure Loader where
  df_raw : Option RawTable := none
  df_clean : Option CleanTable := none

/-- clean_data including its guard (lines 112-114): with no raw table
the call fails at once with the not-loaded error. -/
def loaderCleanData (l : Loader) : Except LoaderError (CleanTable × Loader) :=
  match l.df_raw with
  | none => .error .notLoaded
  | some r =>
    match cleanTable r with
    | .error _ => .error .dataQuality
    | .ok ct => .ok (ct, { l with df_clean := some ct })

/-- label_mappings for sex: {1: male, 2: female}; Series.map yields
null for a key outside the dictionary. -/
def sexLabelMap (n : ℤ) : Option String :=
  if n = 1 then some "male" else if n = 2 then some "female" else none

/-- label_mappings for smoker: {0: no, 1: yes}. -/
def smokerLabelMap (n : ℤ) : Option String :=
  if n = 0 then some "no" else if n = 1 then some "yes" else none

/-- label_mappings for region: {1: northeast, 2: northwest,
3: southeast, 4: southwest}. -/
def regionLabelMap (n : ℤ) : Option String :=
  if n = 1 then some "northeast" else if n = 2 then some "northwest"
  else if n = 3 then some "southeast" else if n = 4 then some "southwest"
  else none

/-- The labeled table: the clean table plus the three label columns
(an out-of-domain code labels as null). -/
structure LabeledTable where
  base : CleanTable
  sex_label : List (Option String)
  smoker_label : List (Option String)
  region_label : List (Option String)
  deriving DecidableEq, Repr

/-- create_labeled_data on a present clean table (lines 156-161):
three Series.map applications of the fixed dictionaries. -/
def createLabeledData (ct : CleanTable) : LabeledTable :=
  ⟨ct, ct.sex.map sexLabelMap, ct.smoker.map smokerLabelMap,
    ct.region.map regionLabelMap⟩

/-- create_labeled_data including its guard (lines 152-154): with no
clean table the call fails at once with the not-cleaned error. -/
def loaderCreateLabeledData (l : Loader) : Except LoaderError LabeledTable :=
  match l.df_clean with
  | none => .error .notCleaned
  | some ct => .ok (createLabeledData ct)

/-! ## Analyzer

The analyzer sees the clean table as a list of named numeric columns.
Exact real arithmetic stands in for float arithmetic; a float NaN is
modelled by `Option.none` (for correlations) or by `FVal.nan` (for the
test statistics, where infinities can also arise). -/

/-- The numeric view of a clean table: named columns in order. -/
def NumFrame : Type := List (String × List ℝ)

/-- Column lookup; none models a KeyError. -/
def getCol? (df : NumFrame) (c : String) : Option (List ℝ) :=
  (df.find? (fun p => p.1 = c)).map (fun p => p.2)

/-- Column lookup with an irrelevant default (only used at names that
are present). -/
noncomputable def getColD (df : NumFrame) (c : String) : List ℝ :=
  (getCol? df c).getD []

/-- The mean of a column (sum over length; 0/0 for the empty column,
which only feeds terms that are zero anyway). -/
noncomputable def meanR (l : List ℝ) : ℝ := l.sum / l.length

/-- Centered second moment: the sum of squared deviations from the
mean. -/
noncomputable def ssC (l : List ℝ) : ℝ :=
  (l.map (fun x => (x - meanR l) ^ 2)).sum

/-- Centered cross moment of two columns of equal length. -/
noncomputable def ssCross (x y : List ℝ) : ℝ :=
  ((x.zip y).map (fun p => (p.1 - meanR x) * (p.2 - meanR y))).sum

/-- Pearson correlation of two columns, as DataFrame.corr computes it:
covariance over the product of standard deviations.  When either
column has zero variance the float result is NaN, modelled as none. -/
noncomputable def pearson (x y : List ℝ) : Option ℝ :=
  if ssC x = 0 ∨ ssC y = 0 then none
  else some (ssCross x y / Real.sqrt (ssC x * ssC y))

/-- The (c1, c2) entry of df.corr(). -/
noncomputable def corrEntry (df : NumFrame) (c1 c2 : String) : Option ℝ :=
  pearson (getColD df c1) (getColD df c2)

/-- The sort key used on the absolute correlation series: a NaN sorts
below every number, hence lands last in the descending order (pandas
puts NaN last). -/
def okey : Option ℝ → WithBot ℝ
  | none => ⊥
  | some v => (v : WithBot ℝ)

/-- Insertion step of a stable descending sort by `okey` of the second
component.  (numpy argsort leaves the order of equal keys unspecified;
the stable choice is the refinement modelled here.) -/
noncomputable def insertDesc (a : String × Option ℝ) :
    List (String × Option ℝ) → List (String × Option ℝ)
  | [] => [a]
  | b :: t => if okey a.2 < okey b.2 then b :: insertDesc a t else a :: b :: t

/-- Stable descending sort by absolute-correlation key: the embedding
of Series.sort_values(ascending=False). -/
noncomputable def sortDesc :
    List (String × Option ℝ) → List (String × Option ℝ)
  | [] => []
  | a :: t => insertDesc a (sortDesc t)

/-- The first entry of maximal key, in encounter order; follows the
wording of the specification (maximum absolute correlation, ties
broken by first-encountered column order). -/
noncomputable def firstMax? :
    List (String × Option ℝ) → Option (String × Option ℝ)
  | [] => none
  | a :: t =>
    match firstMax? t with
    | none => some a
    | some m => if okey a.2 < okey m.2 then some m else some a

/-- corr_matrix[charges].drop(charges).abs(): the absolute correlation
of every other column against charges, in column order. -/
noncomputable def chargesAbsSeries (df : NumFrame) (cc : List ℝ) :
    List (String × Option ℝ) :=
  (df.filter (fun p => p.1 ≠ "charges")).map
    (fun p => (p.1, (pearson p.2 cc).map (fun v => |v|)))

/-- Analyzer failures: a KeyError on a missing required column, an
IndexError on an empty series. -/
inductive AnalysisError where
  | missingColumn
  | indexErr
  deriving DecidableEq, Repr

/-- The correlation sub-result stored by correlation_analysis. -/
structure CorrResult where
  charges_correlations : List (String × Option ℝ)
  strongest_predictor : String
  strongest_correlation : Option ℝ

/-- correlation_analysis (lines 59-80 of data_analyzer.py): build the
correlation matrix, take the charges column (KeyError when absent),
drop charges itself, take absolute values, sort descending, and store
the head entry as strongest predictor and strongest correlation. -/
noncomputable def correlationAnalysis (df : NumFrame) :
    Except AnalysisError CorrResult :=
  match getCol? df "charges" with
  | none => .error .missingColumn
  | some cc =>
    match sortDesc (chargesAbsSeries df cc) with
    | [] => .error .indexErr
    | h :: t => .ok ⟨h :: t, h.1, h.2⟩

/-! ### Statistical tests

scipy works in floats, so a statistic can be NaN (0/0) or infinite
(nonzero/0).  `FVal` makes those outcomes explicit. -/

/-- A float result: NaN, an infinity, or a finite real. -/
inductive FVal where
  | nan
  | posInf
  | negInf
  | fin (x : ℝ)

/-- scipy.stats.ttest_ind with the default pooled variance: the
difference of means over sqrt of pooled variance times (1/n1 + 1/n2).
A group of fewer than two observations makes its ddof-1 variance NaN
and hence the statistic NaN; a zero denominator gives 0/0 = NaN when
the means agree and a signed infinity otherwise. -/
noncomputable def tStatInd (a b : List ℝ) : FVal :=
  if a.length < 2 ∨ b.length < 2 then .nan
  else
    let d := meanR a - meanR b
    let sp2 := (ssC a + ssC b) / (((a.length + b.length - 2 : ℕ)) : ℝ)
    let den2 := sp2 * (1 / (a.length : ℝ) + 1 / (b.length : ℝ))
    if den2 = 0 then
      if d = 0 then .nan else if d > 0 then .posInf else .negInf
    else .fin (d / Real.sqrt den2)

/-- The two-sided p-value 2 * sf(|t|), where sf is the survival
function of the Student t distribution with the proper degrees of
freedom (passed in abstractly; the only facts used about it are facts
of that distribution, stated as hypotheses).  sf of an infinity is 0;
sf of NaN is NaN. -/
noncomputable def pTwoSided (sf : ℝ → ℝ) : FVal → FVal
  | .nan => .nan
  | .posInf => .fin 0
  | .negInf => .fin 0
  | .fin t => .fin (2 * sf |t|)

/-- The significance flag p_value < 0.05 of lines 143, 155, 165: a
float comparison, false on NaN, true on the negative infinity. -/
noncomputable def significanceFlag : FVal → Bool
  | .nan => false
  | .posInf => false
  | .negInf => true
  | .fin p => decide (p < 0.05)

/-- The between-groups sum of squares of scipy.stats.f_oneway, in the
square-of-sums form (exact arithmetic makes the mean offset of the
float code a no-op). -/
noncomputable def ssbn (gs : List (List ℝ)) : ℝ :=
  (gs.map (fun g => g.sum ^ 2 / (g.length : ℝ))).sum -
    (gs.map List.sum).sum ^ 2 / (((gs.map List.length).sum : ℕ) : ℝ)

/-- The within-groups sum of squares of scipy.stats.f_oneway. -/
noncomputable def sswn (gs : List (List ℝ)) : ℝ := (gs.map ssC).sum

/-- scipy.stats.f_oneway on the list of groups: F is the ratio of the
mean squares.  Fewer than two groups is a hard error in scipy and an
empty group propagates NaN, both modelled as NaN; a zero within-group
mean square gives 0/0 = NaN or a positive infinity. -/
noncomputable def fOneway (gs : List (List ℝ)) : FVal :=
  if gs.length < 2 ∨ ∃ g0 ∈ gs, g0.length = 0 then .nan
  else
    let N : ℕ := (gs.map List.length).sum
    let k : ℕ := gs.length
    if N ≤ k then .nan
    else
      let msb := ssbn gs / (((k - 1 : ℕ)) : ℝ)
      let msw := sswn gs / (((N - k : ℕ)) : ℝ)
      if msw = 0 then (if msb = 0 then .nan else .posInf)
      else .fin (msb / msw)

/-- The one-sided p-value sf(F) of the F distribution (survival
function passed in abstractly, as for the t-test). -/
noncomputable def pOneWay (sf : ℝ → ℝ) : FVal → FVal
  | .nan => .nan
  | .posInf => .fin 0
  | .negInf => .fin 1
  | .fin f => .fin (sf f)

/-- A concrete survival function taking the value 1/2 everywhere; at
0 it agrees with the survival function of every Student t
distribution. -/
noncomputable def halfSurvival : ℝ → ℝ := fun _ => 1 / 2

/-- A concrete survival function taking the value 1 everywhere; at 0
it agrees with the survival function of every F distribution. -/
noncomputable def oneSurvival : ℝ → ℝ := fun _ => 1

/-- One stored test result: statistic, p-value, significance flag. -/
structure TestEntry where
  statistic : FVal
  p_value : FVal
  significant : Bool

/-- The labeled view the analyzer reads: charges plus the three
optional label columns (presence of a column models the
  label in df_labeled.columns
checks). -/
structure LabeledFrame where
  charges : List ℝ
  smoker_label : Option (List (Option String)) := none
  sex_label : Option (List (Option String)) := none
  region_label : Option (List (Option String)) := none

/-- Boolean-mask selection df_labeled[df_labeled[col] == v][charges]:
the charges of the rows whose label equals v. -/
def selCharges (labels : List (Option String)) (charges : List ℝ)
    (v : String) : List ℝ :=
  ((labels.zip charges).filter (fun p => p.1 = some v)).map (fun p => p.2)

/-- The distinct labels of a column in sorted order, as groupby sorts
its keys; a null label is dropped by groupby. -/
def groupKeys (labels : List (Option String)) : List String :=
  (labels.filterMap id).dedup.insertionSort (fun a b => a ≤ b)

/-- The charges lists of the groupby(region_label) groups, in key
order. -/
def regionGroups (labels : List (Option String)) (charges : List ℝ) :
    List (List ℝ) :=
  (groupKeys labels).map (fun v => selCharges labels charges v)

/-- The test_results dictionary of statistical_tests (lines 123-169):
each entry is present exactly when its label column is. -/
structure TestResults where
  smoker_ttest : Option TestEntry := none
  sex_ttest : Option TestEntry := none
  region_anova : Option TestEntry := none

/-- Build one t-test entry from two groups. -/
noncomputable def mkTTest (sf : ℝ → ℝ) (a b : List ℝ) : TestEntry :=
  let t := tStatInd a b
  let p := pTwoSided sf t
  ⟨t, p, significanceFlag p⟩

/-- statistical_tests over a labeled frame; the survival functions of
the t and F distributions are passed in abstractly. -/
noncomputable def statisticalTests (sfT sfF : ℝ → ℝ) (df : LabeledFrame) :
    TestResults where
  smoker_ttest := df.smoker_label.map (fun ls =>
    mkTTest sfT (selCharges ls df.charges "yes") (selCharges ls df.charges "no"))
  sex_ttest := df.sex_label.map (fun ls =>
    mkTTest sfT (selCharges ls df.charges "male") (selCharges ls df.charges "female"))
  region_anova := df.region_label.map (fun ls =>
    let f := fOneway (regionGroups ls df.charges)
    let p := pOneWay sfF f
    ⟨f, p, significanceFlag p⟩)

/-! ### Group analysis and insights -/

/-- The minimum of a nonempty list (0 on the empty list, which no
group produces). -/
noncomputable def minR : List ℝ → ℝ
  | [] => 0
  | h :: t => t.foldl min h

/-- The maximum of a nonempty list. -/
noncomputable def maxR : List ℝ → ℝ
  | [] => 0
  | h :: t => t.foldl max h

/-- pandas median over the reals (0 stands for the NaN of an empty
group, which groupby never produces). -/
noncomputable def medianR (l : List ℝ) : ℝ :=
  let s := l.insertionSort (fun a b => a ≤ b)
  if l.length % 2 = 1 then (s.get? (l.length / 2)).getD 0
  else ((s.get? (l.length / 2 - 1)).getD 0 + (s.get? (l.length / 2)).getD 0) / 2

/-- Sample standard deviation (ddof = 1), NaN for fewer than two
observations. -/
noncomputable def stdSample (l : List ℝ) : FVal :=
  if l.length < 2 then .nan
  else .fin (Real.sqrt (ssC l / (((l.length - 1 : ℕ)) : ℝ)))

/-- One aggregate row of the group tables: count, mean, median, std,
min, max. -/
structure GroupStats where
  count : ℕ
  mean : ℝ
  median : ℝ
  std : FVal
  mn : ℝ
  mx : ℝ

/-- The aggregate row of one group of charges. -/
noncomputable def groupAgg (g : List ℝ) : GroupStats :=
  ⟨g.length, meanR g, medianR g, stdSample g, minR g, maxR g⟩

/-- groupby(label)[charges].agg(...) over a label column. -/
noncomputable def groupByLabel (labels : List (Option String))
    (charges : List ℝ) : List (String × GroupStats) :=
  (groupKeys labels).map (fun v => (v, groupAgg (selCharges labels charges v)))

/-- The group_results dictionary of group_analysis (lines 82-121). -/
structure GroupResults where
  smoker : Option (List (String × GroupStats)) := none
  sex : Option (List (String × GroupStats)) := none
  region : Option (List (String × GroupStats)) := none
  children : List (ℤ × GroupStats) := []

/-- The correlation insight record (lines 185-189). -/
structure CorrInsight where
  strongest_predictor : String
  correlation_value : Option ℝ
  interpretation : String

/-- The smoking-impact insight record (lines 199-204). -/
structure SmokingImpact where
  multiplier : ℝ
  difference : ℝ
  high_group : String
  low_group : String

/-- The insights dictionary: each key is present only when its branch
fired. -/
structure Insights where
  correlations : Option CorrInsight := none
  smoking_impact : Option SmokingImpact := none
  significant_factors : Option (List String) := none

/-- The analysis_results bundle accumulated across the phases. -/
structure Bundle where
  basic_stats : Option Unit := none
  correlation : Option CorrResult := none
  groups : Option GroupResults := none
  statistical_tests : Option TestResults := none
  insights : Option Insights := none

/-- interpret_correlation (lines 220-239): fixed absolute-value
thresholds; every comparison with NaN is false, landing in the final
else branch. -/
noncomputable def interpretCorrelation : Option ℝ → String
  | none => "Very weak"
  | some r =>
    if |r| ≥ 0.7 then "Strong"
    else if |r| ≥ 0.5 then "Moderate"
    else if |r| ≥ 0.3 then "Weak"
    else "Very weak"

/-- Series.idxmax: the first label whose value attains the maximum. -/
noncomputable def idxOfMax (ms : List (String × ℝ)) : String :=
  ((ms.find? (fun p => p.2 = maxR (ms.map (fun q => q.2)))).map
    (fun p => p.1)).getD ""

/-- Series.idxmin: the first label whose value attains the minimum. -/
noncomputable def idxOfMin (ms : List (String × ℝ)) : String :=
  ((ms.find? (fun p => p.2 = minR (ms.map (fun q => q.2)))).map
    (fun p => p.1)).getD ""

/-- generate_insights (lines 171-218): read the prior phases from the
bundle, derive the three optional insight records, store and return
them.  A bundle with none of the prior keys takes none of the three
branches. -/
noncomputable def generateInsights (b : Bundle) : Insights × Bundle :=
  let corrIns : Option CorrInsight := b.correlation.map (fun c =>
    ⟨c.strongest_predictor, c.strongest_correlation,
      interpretCorrelation c.strongest_correlation⟩)
  let smoking : Option SmokingImpact :=
    match b.groups with
    | none => none
    | some g =>
      match g.smoker with
      | none => none
      | some gs =>
        let ms := gs.map (fun p => (p.1, p.2.mean))
        if 2 ≤ ms.length then
          some ⟨maxR (ms.map (fun q => q.2)) / minR (ms.map (fun q => q.2)),
            maxR (ms.map (fun q => q.2)) - minR (ms.map (fun q => q.2)),
            idxOfMax ms, idxOfMin ms⟩
        else none
  let sig : Option (List String) := b.statistical_tests.map (fun t =>
    (match t.smoker_ttest with
      | some e => if e.significant then ["smoker"] else []
      | none => []) ++
    (match t.sex_ttest with
      | some e => if e.significant then ["sex"] else []
      | none => []) ++
    (match t.region_anova with
      | some e => if e.significant then ["region"] else []
      | none => []))
  let ins : Insights := ⟨corrIns, smoking, sig⟩
  (ins, { b with insights := some ins })

end Pipeline

namespace Pipeline

/-! ## Claims -/

/-- C3: clean_data fails with the not-loaded error whenever no raw
table exists, and create_labeled_data fails with the not-cleaned error
whenever no clean table exists; both sequencing violations produce the
explicit error value instead of continuing. -/
theorem clean_and_label_sequencing_errors :
    (∀ l : Loader, l.df_raw = none →
      loaderCleanData l = .error .notLoaded) ∧
    (∀ l : Loader, l.df_clean = none →
      loaderCreateLabeledData l = .error .notCleaned) := by
  constructor
  · intro l h
    unfold loaderCleanData
    rw [h]
  · intro l h
    unfold loaderCreateLabeledData
    rw [h]

/-- C3 witness: the freshly constructed loader has neither table, and
both operations fail with their sequencing errors. -/
theorem clean_and_label_sequencing_errors_witness :
    loaderCleanData ⟨none, none⟩ = .error .notLoaded ∧
    loaderCreateLabeledData ⟨none, none⟩ = .error .notCleaned :=
  ⟨clean_and_label_sequencing_errors.1 ⟨none, none⟩ rfl,
   clean_and_label_sequencing_errors.2 ⟨none, none⟩ rfl⟩

/-- C9: generate_insights on a bundle holding none of the prior phase
keys raises no error: it returns the empty insight mapping and stores
that empty mapping under the insights key of the bundle. -/
theorem generate_insights_on_empty_bundle :
    generateInsights ⟨none, none, none, none, none⟩ =
      (⟨none, none, none⟩,
       ⟨none, none, none, none, some ⟨none, none, none⟩⟩) := rfl

/-- C5: correlation_analysis fails with the missing-column error
whenever the charges column is absent from the frame. -/
theorem correlation_analysis_missing_charges
    (df : NumFrame) (h : getCol? df "charges" = none) :
    correlationAnalysis df = .error .missingColumn := by
  unfold correlationAnalysis
  rw [h]

/-- C5 witness: a frame with only an age column has no charges column,
and correlation analysis fails with the missing-column error. -/
theorem correlation_analysis_missing_charges_witness :
    getCol? [("age", [(1 : ℝ), 2])] "charges" = none ∧
    correlationAnalysis [("age", [(1 : ℝ), 2])] = .error .missingColumn :=
  ⟨rfl, correlation_analysis_missing_charges [("age", [(1 : ℝ), 2])] rfl⟩

/-- C10: create_labeled_data maps each code column through its fixed
dictionary; an in-domain code receives exactly the fixed label and any
out-of-domain code receives a null label, with no error raised. -/
theorem labeling_maps_codes (ct : CleanTable) :
    ((createLabeledData ct).sex_label = ct.sex.map sexLabelMap ∧
     (createLabeledData ct).smoker_label = ct.smoker.map smokerLabelMap ∧
     (createLabeledData ct).region_label = ct.region.map regionLabelMap) ∧
    (∀ n : ℤ,
      (n ≠ 1 → n ≠ 2 → sexLabelMap n = none) ∧
      (n ≠ 0 → n ≠ 1 → smokerLabelMap n = none) ∧
      (n ≠ 1 → n ≠ 2 → n ≠ 3 → n ≠ 4 → regionLabelMap n = none)) ∧
    (sexLabelMap 1 = some "male" ∧ sexLabelMap 2 = some "female" ∧
     smokerLabelMap 0 = some "no" ∧ smokerLabelMap 1 = some "yes" ∧
     regionLabelMap 1 = some "northeast" ∧
     regionLabelMap 2 = some "northwest" ∧
     regionLabelMap 3 = some "southeast" ∧
     regionLabelMap 4 = some "southwest") := by
  refine ⟨⟨rfl, rfl, rfl⟩, ?_, by decide⟩
  intro n
  refine ⟨fun h1 h2 => ?_, fun h1 h2 => ?_, fun h1 h2 h3 h4 => ?_⟩
  · simp [sexLabelMap, h1, h2]
  · simp [smokerLabelMap, h1, h2]
  · simp [regionLabelMap, h1, h2, h3, h4]

/-- C10 witness: on a one-row clean table with sex 1, smoker 9 and
region 3 the labels are male, null, and southeast. -/
theorem labeling_maps_codes_witness :
    ((9 : ℤ) ≠ 0 ∧ (9 : ℤ) ≠ 1) ∧
    (createLabeledData ⟨[25], [1], [.num 20], [0], [9], [3], [.num 100]⟩).sex_label
      = [some "male"] ∧
    (createLabeledData ⟨[25], [1], [.num 20], [0], [9], [3], [.num 100]⟩).smoker_label
      = [none] ∧
    (createLabeledData ⟨[25], [1], [.num 20], [0], [9], [3], [.num 100]⟩).region_label
      = [some "southeast"] := by
  have h := labeling_maps_codes ⟨[25], [1], [.num 20], [0], [9], [3], [.num 100]⟩
  refine ⟨⟨by decide, by decide⟩, ?_, ?_, ?_⟩
  · rw [h.1.1]; decide
  · rw [h.1.2.1]
    have h9 := (h.2.1 9).2.1 (by decide) (by decide)
    rw [List.map_cons, h9]; rfl
  · rw [h.1.2.2]; decide

/-- Every modal value occurs in the column. -/
lemma mem_of_mem_modeList {col : List RawVal} {v : RawVal}
    (hv : v ∈ modeList col) : v ∈ col := by
  rw [modeList, List.mem_insertionSort, List.mem_filter] at hv
  have hd := hv.1
  rw [distinctVals, List.mem_dedup, List.mem_filter] at hd
  exact hd.1

/-- The fold computing the maximal multiplicity lands on a member. -/
lemma foldr_max_mem : ∀ l : List ℕ, l ≠ [] → l.foldr max 0 ∈ l := by
  intro l
  induction l with
  | nil => simp
  | cons a t ih =>
    intro _
    by_cases ht : t = []
    · subst ht; simp
    · show max a (t.foldr max 0) ∈ a :: t
      rcases le_total (t.foldr max 0) a with hle | hle
      · rw [max_eq_left hle]; exact List.mem_cons_self _ _
      · rw [max_eq_right hle]; exact List.mem_cons_of_mem _ (ih ht)

/-- A nonempty column of non-null values has a nonempty mode list. -/
lemma modeList_ne_nil {col : List RawVal} (h2 : col ≠ [])
    (hnn : ∀ v ∈ col, v ≠ RawVal.null) : modeList col ≠ [] := by
  obtain ⟨a, ha⟩ := List.exists_mem_of_ne_nil col h2
  have hd : a ∈ distinctVals col := by
    rw [distinctVals, List.mem_dedup, List.mem_filter]
    exact ⟨ha, by simpa using hnn a ha⟩
  have hmapne : (distinctVals col).map (fun v => col.count v) ≠ [] := by
    simp only [ne_eq, List.map_eq_nil_iff]
    intro h0
    rw [h0] at hd
    exact absurd hd (List.not_mem_nil a)
  have hmax : maxCount col ∈ (distinctVals col).map (fun v => col.count v) :=
    foldr_max_mem _ hmapne
  obtain ⟨w, hw, hwc⟩ := List.mem_map.mp hmax
  have hmem : w ∈ modeList col := by
    rw [modeList, List.mem_insertionSort, List.mem_filter]
    exact ⟨hw, by simp [hwc]⟩
  intro h0
  rw [h0] at hmem
  exact absurd hmem (List.not_mem_nil w)

/-- Casting a list of numeric cells succeeds and truncates each. -/
lemma mapM_castSmoker_nums (l : List RawVal) (d : RawVal → ℤ)
    (h : ∀ v ∈ l, ∃ q, v = RawVal.num q) :
    l.mapM castSmoker = .ok (l.map (fun v =>
      match v with
      | RawVal.num q => truncQ q
      | w => d w)) := by
  induction l with
  | nil => rfl
  | cons a t ih =>
    obtain ⟨q, rfl⟩ := h a (List.mem_cons_self _ _)
    have ih2 := ih (fun v hv => h v (List.mem_cons_of_mem _ hv))
    rw [List.mapM_cons, ih2]
    rfl

/-- C1 counterexample: for the raw smoker column [1, ?, ?] the
non-sentinel values are {1}, whose mode is unambiguously 1, so the
claimed rule would clean the column to [1, 1, 1]; the code computes
the mode over the full column, sees the sentinel as the modal value,
falls back to 0, and produces [1, 0, 0]. -/
theorem smoker_mode_counterexample :
    smokerClean [RawVal.num 1, .sentinel, .sentinel] = .ok [1, 0, 0] ∧
    specNonSentinelMode [RawVal.num 1, .sentinel, .sentinel] = [RawVal.num 1] ∧
    ([1, 0, 0] : List ℤ) ≠ [1, 1, 1] :=
  ⟨by decide, by decide, by decide⟩

/-- C1 amended: on a smoker column of numbers and sentinels, every
sentinel is replaced by one fill value computed from the mode of the
FULL column (sentinels included in the frequency count): 0 whenever
the sentinel is itself among the modal values, otherwise the smallest
modal value; numeric cells are truncated to integers unchanged. -/
theorem smoker_fill_full_column_mode (col : List RawVal)
    (h1 : ∀ v ∈ col, v = RawVal.sentinel ∨ ∃ q, v = RawVal.num q)
    (h2 : col ≠ []) :
    ∃ f : ℚ,
      smokerClean col = .ok (col.map (fun v =>
        match v with
        | RawVal.num q => truncQ q
        | _ => truncQ f)) ∧
      (RawVal.sentinel ∈ modeList col → f = 0) ∧
      (RawVal.sentinel ∉ modeList col →
        RawVal.num f ∈ modeList col ∧
        ∀ q : ℚ, RawVal.num q ∈ modeList col → f ≤ q) := by
  have hclean : ∀ f : ℚ, smokerFill col = .ok (RawVal.num f) →
      smokerClean col = .ok (col.map (fun v =>
        match v with
        | RawVal.num q => truncQ q
        | _ => truncQ f)) := by
    intro f hf
    unfold smokerClean
    rw [hf]
    have hall : ∀ v ∈ col.map (fun v =>
        if v = RawVal.sentinel then RawVal.num f else v), ∃ q, v = RawVal.num q := by
      intro v hv
      obtain ⟨w, hw, rfl⟩ := List.mem_map.mp hv
      rcases h1 w hw with rfl | ⟨q, rfl⟩
      · exact ⟨f, by simp⟩
      · exact ⟨q, by simp⟩
    have hmm := mapM_castSmoker_nums _ (fun _ => truncQ f) hall
    show (col.map (fun v => if v = RawVal.sentinel then RawVal.num f else v)).mapM
        castSmoker = _
    rw [hmm, List.map_map]
    congr 1
    refine List.map_congr_left ?_
    intro v hv
    rcases h1 v hv with rfl | ⟨q, rfl⟩ <;> simp
  by_cases hA : (modeList col).any containsQ
  · refine ⟨0, hclean 0 ?_, fun _ => rfl, fun hns => ?_⟩
    · unfold smokerFill
      rw [if_pos hA]
    · exfalso
      obtain ⟨w, hw, hwq⟩ := List.any_eq_true.mp hA
      rcases h1 w (mem_of_mem_modeList hw) with rfl | ⟨q, rfl⟩
      · exact hns hw
      · exact absurd hwq (by simp [containsQ])
  · have hns : RawVal.sentinel ∉ modeList col := by
      intro hs
      exact hA (List.any_eq_true.mpr ⟨_, hs, rfl⟩)
    have hnn : ∀ v ∈ col, v ≠ RawVal.null := by
      intro v hv
      rcases h1 v hv with rfl | ⟨q, rfl⟩ <;> simp
    have hne := modeList_ne_nil h2 hnn
    obtain ⟨v0, rest, hml⟩ := List.exists_cons_of_ne_nil hne
    have hv0 : v0 ∈ modeList col := by rw [hml]; exact List.mem_cons_self _ _
    rcases h1 v0 (mem_of_mem_modeList hv0) with rfl | ⟨f, rfl⟩
    · exact absurd hv0 hns
    have hsorted : List.Sorted rvRel (modeList col) :=
      List.sorted_insertionSort rvRel _
    rw [hml] at hsorted
    refine ⟨f, hclean f ?_, fun hs => absurd hs hns, fun _ => ⟨hv0, ?_⟩⟩
    · unfold smokerFill
      rw [if_neg hA, hml]
    · intro q hq
      rw [hml] at hq
      rcases List.mem_cons.mp hq with heq | hmem
      · injection heq with h
        rw [h]
      · have hrel : rvRel (RawVal.num f) (RawVal.num q) :=
          (List.sorted_cons.mp hsorted).1 _ hmem
        simpa [rvRel, rvLE] using hrel

/-- C1 witness: on the smoker column [0, 1, 0, ?, 1] of the
specification test, the sentinel is not modal, the modal values of the
full column are 0 and 1, the fill value is the smaller mode 0, and the
cleaned column is [0, 1, 0, 0, 1]. -/
theorem smoker_fill_witness :
    smokerClean [RawVal.num 0, .num 1, .num 0, .sentinel, .num 1] =
      .ok [0, 1, 0, 0, 1] ∧
    RawVal.sentinel ∉ modeList [RawVal.num 0, .num 1, .num 0, .sentinel, .num 1] := by
  obtain ⟨f, hcl, h0, hmin⟩ := smoker_fill_full_column_mode
    [RawVal.num 0, .num 1, .num 0, .sentinel, .num 1]
    (by
      intro v hv
      fin_cases hv <;> first | exact Or.inl rfl | exact Or.inr ⟨_, rfl⟩)
    (by decide)
  have hns : RawVal.sentinel ∉
      modeList [RawVal.num 0, .num 1, .num 0, .sentinel, .num 1] := by decide
  have hml : modeList [RawVal.num 0, .num 1, .num 0, .sentinel, .num 1] =
      [RawVal.num 0, RawVal.num 1] := by decide
  obtain ⟨hmem, hle⟩ := hmin hns
  have hf : f = 0 := by
    have hle0 : f ≤ 0 := hle 0 (by rw [hml]; exact List.mem_cons_self _ _)
    rw [hml] at hmem
    rcases List.mem_cons.mp hmem with heq | hmem2
    · injection heq
    · rcases List.mem_cons.mp hmem2 with heq | hmem3
      · exfalso
        injection heq with h
        rw [h] at hle0
        norm_num at hle0
      · exact absurd hmem3 (List.not_mem_nil _)
  subst hf
  exact ⟨by rw [hcl]; decide, hns⟩

/-- C4 counterexample: clean_data accepts a one-row raw table whose
sex code is 3 and whose bmi is null, and the resulting clean table
keeps the out-of-domain sex code 3 and keeps the null bmi value, so
the claimed invariant (zero nulls everywhere, categorical codes inside
their domains) fails on a table clean accepts. -/
theorem clean_invariant_counterexample :
    cleanTable ⟨[.num 30], [.num 3], [.null], [.num 0], [.num 0],
        [.num 1], [.num 100]⟩ =
      .ok ⟨[30], [3], [.null], [0], [0], [1], [.num 100]⟩ ∧
    (3 : ℤ) ∉ ([1, 2] : List ℤ) ∧
    RawVal.null ∈ [RawVal.null] := by
  refine ⟨by decide, by decide, by decide⟩

/-- C4 amended: for every raw table accepted by clean_data the five
coerced columns (age, sex, children, smoker, region) are integer
columns with no nulls, but bmi and charges are passed through
untouched (a null there persists) and the categorical codes are merely
integer casts of the raw values, never checked against their declared
domains. -/
theorem clean_passthrough_and_no_validation
    (r : RawTable) (ct : CleanTable) (h : cleanTable r = .ok ct) :
    ct.bmi = r.bmi ∧ ct.charges = r.charges ∧
    r.sex.mapM castIntRaw = .ok ct.sex ∧
    r.children.mapM castIntRaw = .ok ct.children ∧
    r.region.mapM castIntRaw = .ok ct.region := by
  unfold cleanTable at h
  cases hA : ageClean r.age with
  | error e => rw [hA] at h; exact absurd h (by simp [Bind.bind, Except.bind])
  | ok a =>
    rw [hA] at h
    cases hSm : smokerClean r.smoker with
    | error e => rw [hSm] at h; exact absurd h (by simp [Bind.bind, Except.bind])
    | ok sm =>
      rw [hSm] at h
      cases hSx : r.sex.mapM castIntRaw with
      | error e => rw [hSx] at h; exact absurd h (by simp [Bind.bind, Except.bind])
      | ok sx =>
        rw [hSx] at h
        cases hCh : r.children.mapM castIntRaw with
        | error e => rw [hCh] at h; exact absurd h (by simp [Bind.bind, Except.bind])
        | ok ch =>
          rw [hCh] at h
          cases hRg : r.region.mapM castIntRaw with
          | error e => rw [hRg] at h; exact absurd h (by simp [Bind.bind, Except.bind])
          | ok rg =>
            rw [hRg] at h
            simp only [Bind.bind, Except.bind, pure, Except.pure, Except.ok.injEq] at h
            subst h
            refine ⟨rfl, rfl, ?_, ?_, ?_⟩ <;> simp [hSx, hCh, hRg]

/-- A nonempty list of rationals has a defined median. -/
lemma medianQ_isSome (l : List ℚ) (h : l ≠ []) : ∃ m, medianQ l = some m := by
  unfold medianQ medianSorted
  set s := l.insertionSort (fun a b => a ≤ b) with hs
  have hlen : s.length = l.length := (List.perm_insertionSort _ l).length_eq
  have hne : s ≠ [] := by
    intro h0
    exact h (List.length_eq_zero.mp (by rw [← hlen, h0]; rfl))
  have hpos : 0 < s.length := List.length_pos.mpr hne
  rw [if_neg hne]
  by_cases hp : s.length % 2 = 1
  · rw [if_pos hp]
    have hlt : s.length / 2 < s.length := Nat.div_lt_self hpos (by norm_num)
    exact ⟨s.get ⟨s.length / 2, hlt⟩, List.get?_eq_get hlt⟩
  · rw [if_neg hp]
    have h2 : 2 ≤ s.length := by
      rcases Nat.lt_or_ge s.length 2 with hl | hl
      · interval_cases hx : s.length
        all_goals simp_all
      · exact hl
    have hlt2 : s.length / 2 < s.length := Nat.div_lt_self hpos (by norm_num)
    have hlt1 : s.length / 2 - 1 < s.length := lt_of_le_of_lt (Nat.sub_le _ _) hlt2
    refine ⟨(s.get ⟨s.length / 2 - 1, hlt1⟩ + s.get ⟨s.length / 2, hlt2⟩) / 2, ?_⟩
    rw [List.get?_eq_get hlt1, List.get?_eq_get hlt2]
    rfl

/-- C6: with at least one parseable age, every unparseable age cell is
replaced by the median of exactly the parseable values (the median is
taken after parse failures are marked and before replacement, so the
imputed value never feeds its own computation), every parseable cell
keeps its parsed value, and the reported missing count is exactly the
number of unparseable cells. -/
theorem age_imputation (col : List RawVal)
    (h : (col.map toNum?).filterMap id ≠ []) :
    ∃ m, medianQ ((col.map toNum?).filterMap id) = some m ∧
      ageFilled col = col.map (fun v => some ((toNum? v).getD m)) ∧
      ageMissing col = (col.filter (fun v => toNum? v = none)).length := by
  obtain ⟨m, hm⟩ := medianQ_isSome _ h
  refine ⟨m, hm, ?_, ?_⟩
  · unfold ageFilled
    by_cases hmiss : ageMissing col > 0
    · rw [if_pos hmiss, hm]
      dsimp only
      rw [List.map_map]
      rfl
    · rw [if_neg hmiss]
      have h0 : ageMissing col = 0 := Nat.eq_zero_of_not_pos hmiss
      unfold ageMissing at h0
      have hall := List.filter_eq_nil_iff.mp (List.length_eq_zero.mp h0)
      refine List.map_congr_left ?_
      intro v hv
      have hnn : ¬toNum? v = none := by
        have := hall (toNum? v) (List.mem_map_of_mem toNum? hv)
        simpa using this
      obtain ⟨q, hq⟩ := Option.ne_none_iff_exists.mp hnn
      rw [← hq]
      rfl
  · unfold ageMissing
    rw [← List.countP_eq_length_filter, ← List.countP_eq_length_filter,
      List.countP_map]
    rfl

/-- C6 witness: four raw ages with one unparseable token; the median
of the three parseable ages 30, 20, 40 is 30, the token becomes 30,
and one missing value is reported. -/
theorem age_imputation_witness :
    ([RawVal.num 30, .junk "abc", .num 20, .num 40].map toNum?).filterMap id ≠ [] ∧
    ageFilled [RawVal.num 30, .junk "abc", .num 20, .num 40] =
      [some 30, some 30, some 20, some 40] ∧
    ageMissing [RawVal.num 30, .junk "abc", .num 20, .num 40] = 1 := by
  have h0 : ([RawVal.num 30, .junk "abc", .num 20, .num 40].map toNum?).filterMap id
      ≠ [] := by decide
  obtain ⟨m, hm, hfill, hmiss⟩ := age_imputation _ h0
  have hm30 : m = 30 := by
    have hc : medianQ (([RawVal.num 30, .junk "abc", .num 20,
        .num 40].map toNum?).filterMap id) = some 30 := by decide
    exact Option.some_injective _ (hm.symm.trans hc)
  subst hm30
  refine ⟨h0, ?_, ?_⟩
  · rw [hfill]; decide
  · rw [hmiss]; decide

/-- C4 amended witness: on the counterexample table, bmi and charges
come through unchanged and sex is the plain integer cast of the raw
sex column. -/
theorem clean_passthrough_witness :
    cleanTable ⟨[.num 30], [.num 3], [.null], [.num 0], [.num 0],
        [.num 1], [.num 100]⟩ =
      .ok ⟨[30], [3], [.null], [0], [0], [1], [.num 100]⟩ ∧
    ([RawVal.null] : List RawVal) = [RawVal.null] ∧
    [RawVal.num 3].mapM castIntRaw = .ok ([3] : List ℤ) := by
  have hok : cleanTable ⟨[.num 30], [.num 3], [.null], [.num 0], [.num 0],
      [.num 1], [.num 100]⟩ =
      .ok ⟨[30], [3], [.null], [0], [0], [1], [.num 100]⟩ := by decide
  have h := clean_passthrough_and_no_validation _ _ hok
  exact ⟨hok, h.1, h.2.2.1⟩

/-- Zipping a list with itself and mapping pairs is mapping the
diagonal. -/
lemma zip_self_map {α β : Type} (l : List α) (f : α → α → β) :
    (l.zip l).map (fun p => f p.1 p.2) = l.map (fun a => f a a) := by
  induction l with
  | nil => rfl
  | cons a t ih => simp only [List.zip_cons_cons, List.map_cons, ih]

/-- The cross moment is symmetric. -/
lemma ssCross_comm (x y : List ℝ) : ssCross x y = ssCross y x := by
  unfold ssCross
  rw [← List.zip_swap y x, List.map_map]
  congr 1
  refine List.map_congr_left ?_
  intro p _
  simp only [Function.comp_apply, Prod.fst_swap, Prod.snd_swap]
  ring

/-- The cross moment of a column with itself is its centered second
moment. -/
lemma ssCross_self (x : List ℝ) : ssCross x x = ssC x := by
  unfold ssCross ssC
  rw [zip_self_map x (fun a b => (a - meanR x) * (b - meanR x))]
  congr 1
  refine List.map_congr_left ?_
  intro a _
  ring

/-- The centered second moment is a sum of squares. -/
lemma ssC_nonneg (x : List ℝ) : 0 ≤ ssC x := by
  refine List.sum_nonneg ?_
  intro v hv
  obtain ⟨a, _, rfl⟩ := List.mem_map.mp hv
  exact sq_nonneg _

/-- C7: the correlation matrix is symmetric at every pair of columns,
and the diagonal entry of every column of nonzero variance equals 1;
(the counterexample shows the diagonal of a zero-variance column is
NaN instead). -/
theorem corr_matrix_symm_diag (df : NumFrame) (c1 c2 : String)
    (hvar : ssC (getColD df c1) ≠ 0) :
    corrEntry df c1 c2 = corrEntry df c2 c1 ∧
    corrEntry df c1 c1 = some 1 := by
  constructor
  · unfold corrEntry pearson
    by_cases h : ssC (getColD df c1) = 0 ∨ ssC (getColD df c2) = 0
    · rw [if_pos h, if_pos (Or.symm h)]
    · rw [if_neg h, if_neg (fun hc => h (Or.symm hc))]
      rw [ssCross_comm, mul_comm]
  · unfold corrEntry pearson
    rw [if_neg (by simpa using hvar)]
    rw [ssCross_self, Real.sqrt_mul_self (ssC_nonneg _)]
    rw [div_self hvar]

/-- C7 counterexample: a clean table can contain a constant column
(every smoker value 0); its diagonal correlation entry is then NaN
(0 variance gives 0/0), not 1. -/
theorem corr_diag_counterexample :
    corrEntry [("smoker", [0, 0, 0]), ("charges", [1, 2, 3])]
      "smoker" "smoker" ≠ some 1 := by
  have hcol : getColD [("smoker", [(0 : ℝ), 0, 0]), ("charges", [1, 2, 3])]
      "smoker" = [0, 0, 0] := rfl
  rw [corrEntry, hcol]
  have hss : ssC [(0 : ℝ), 0, 0] = 0 := by norm_num [ssC, meanR]
  rw [pearson, if_pos (Or.inl hss)]
  simp

/-- C7 witness: on a frame with the single column x = [1, 2], the
variance is nonzero, the diagonal entry is 1, and the matrix is
symmetric at the pair (x, y). -/
theorem corr_matrix_symm_diag_witness :
    ssC (getColD [("x", [(1 : ℝ), 2])] "x") ≠ 0 ∧
    corrEntry [("x", [(1 : ℝ), 2])] "x" "x" = some 1 ∧
    corrEntry [("x", [(1 : ℝ), 2])] "x" "y" =
      corrEntry [("x", [(1 : ℝ), 2])] "y" "x" := by
  have hcol : getColD [("x", [(1 : ℝ), 2])] "x" = [1, 2] := rfl
  have hss : ssC (getColD [("x", [(1 : ℝ), 2])] "x") ≠ 0 := by
    rw [hcol]; norm_num [ssC, meanR]
  exact ⟨hss, (corr_matrix_symm_diag _ "x" "x" hss).2,
    (corr_matrix_symm_diag _ "x" "y" hss).1⟩

/-- The head of a descending insertion is the larger of the new
element and the old head, the old head winning ties from the left. -/
lemma head?_insertDesc (a : String × Option ℝ) (l : List (String × Option ℝ)) :
    (insertDesc a l).head? = some (match l with
      | [] => a
      | b :: _ => if okey a.2 < okey b.2 then b else a) := by
  cases l with
  | nil => rfl
  | cons b t =>
    unfold insertDesc
    by_cases h : okey a.2 < okey b.2 <;> simp [h]

/-- The head of the descending sort is the first entry of maximal
key. -/
lemma sortDesc_head_eq_firstMax (l : List (String × Option ℝ)) :
    (sortDesc l).head? = firstMax? l := by
  induction l with
  | nil => rfl
  | cons a t ih =>
    show (insertDesc a (sortDesc t)).head? = _
    rw [head?_insertDesc]
    rcases hs : sortDesc t with _ | ⟨b, t2⟩
    · have hn : firstMax? t = none := by rw [← ih, hs]; rfl
      unfold firstMax?
      rw [hn]
    · have hb : firstMax? t = some b := by rw [← ih, hs]; rfl
      unfold firstMax?
      rw [hb]
      by_cases h : okey a.2 < okey b.2 <;> simp [h]

/-- Unfolding equation for the first-maximum of a cons. -/
lemma firstMax?_cons (a : String × Option ℝ) (t : List (String × Option ℝ)) :
    firstMax? (a :: t) = match firstMax? t with
      | none => some a
      | some m => if okey a.2 < okey m.2 then some m else some a := rfl

/-- The first-maximum of a nonempty list exists. -/
lemma firstMax?_ne_none (a : String × Option ℝ) (t : List (String × Option ℝ)) :
    firstMax? (a :: t) ≠ none := by
  rcases h2 : firstMax? t with _ | m
  · simp [firstMax?_cons, h2]
  · simp only [firstMax?_cons, h2]
    by_cases h : okey a.2 < okey m.2 <;> simp [h]

/-- The first entry of maximal key is a member dominating every
entry. -/
lemma firstMax?_mem_le (l : List (String × Option ℝ))
    (m : String × Option ℝ) (hm : firstMax? l = some m) :
    m ∈ l ∧ ∀ p ∈ l, okey p.2 ≤ okey m.2 := by
  induction l generalizing m with
  | nil => exact absurd hm (by simp [firstMax?])
  | cons a t ih =>
    rcases ht : firstMax? t with _ | m'
    · have hte : t = [] := by
        cases t with
        | nil => rfl
        | cons b t2 => exact absurd ht (firstMax?_ne_none b t2)
      subst hte
      simp only [firstMax?_cons, ht] at hm
      injection hm with hm
      subst hm
      refine ⟨List.mem_cons_self _ _, ?_⟩
      intro p hp
      rcases List.mem_cons.mp hp with rfl | hp2
      · exact le_refl _
      · exact absurd hp2 (List.not_mem_nil p)
    · simp only [firstMax?_cons, ht] at hm
      obtain ⟨hmem', hle'⟩ := ih m' ht
      by_cases h : okey a.2 < okey m'.2
      · rw [if_pos h] at hm
        injection hm with hm
        subst hm
        refine ⟨List.mem_cons_of_mem _ hmem', ?_⟩
        intro p hp
        rcases List.mem_cons.mp hp with rfl | hp2
        · exact le_of_lt h
        · exact hle' p hp2
      · rw [if_neg h] at hm
        injection hm with hm
        subst hm
        refine ⟨List.mem_cons_self _ _, ?_⟩
        intro p hp
        rcases List.mem_cons.mp hp with rfl | hp2
        · exact le_refl _
        · exact le_trans (hle' p hp2) (not_lt.mp h)

/-- C2 amended: whenever the charges column is present and the
analysis succeeds, the stored strongest predictor is exactly the
first-encountered column of maximal absolute correlation with
charges, and the stored strongest correlation is that maximal
ABSOLUTE value (the code applies abs before sorting, so the sign is
not preserved). -/
theorem strongest_predictor_is_first_argmax (df : NumFrame) (cc : List ℝ)
    (r : CorrResult) (hcc : getCol? df "charges" = some cc)
    (hok : correlationAnalysis df = .ok r) :
    firstMax? (chargesAbsSeries df cc) =
      some (r.strongest_predictor, r.strongest_correlation) ∧
    (r.strongest_predictor, r.strongest_correlation) ∈ chargesAbsSeries df cc ∧
    ∀ p ∈ chargesAbsSeries df cc,
      okey p.2 ≤ okey r.strongest_correlation := by
  unfold correlationAnalysis at hok
  rw [hcc] at hok
  dsimp only at hok
  rcases hs : sortDesc (chargesAbsSeries df cc) with _ | ⟨h, t⟩
  · rw [hs] at hok
    exact absurd hok (by simp)
  · rw [hs] at hok
    simp only [Except.ok.injEq] at hok
    subst hok
    have hhead : firstMax? (chargesAbsSeries df cc) = some h := by
      rw [← sortDesc_head_eq_firstMax, hs]
      rfl
    obtain ⟨hmem, hle⟩ := firstMax?_mem_le _ _ hhead
    exact ⟨hhead, hmem, hle⟩

/-- The Pearson correlation of the concrete columns [1,2,3] and
[3,2,1] is exactly -1. -/
lemma pearson_neg_example : pearson [(1 : ℝ), 2, 3] [3, 2, 1] = some (-1) := by
  have h1 : ssC [(1 : ℝ), 2, 3] = 2 := by norm_num [ssC, meanR]
  have h2 : ssC [(3 : ℝ), 2, 1] = 2 := by norm_num [ssC, meanR]
  have h3 : ssCross [(1 : ℝ), 2, 3] [3, 2, 1] = -2 := by
    norm_num [ssCross, meanR, List.zip_cons_cons]
  rw [pearson, if_neg (by rw [h1, h2]; norm_num), h3, h1, h2]
  have hs : Real.sqrt (2 * 2) = 2 := by
    rw [show (2 : ℝ) * 2 = 2 ^ 2 by ring, Real.sqrt_sq (by norm_num)]
  rw [hs]
  norm_num

/-- Evaluation of correlation_analysis on a concrete two-column frame
whose only predictor correlates with charges at exactly -1. -/
lemma corrAnalysis_concrete :
    correlationAnalysis [("x", [(1 : ℝ), 2, 3]), ("charges", [3, 2, 1])] =
      .ok ⟨[("x", some 1)], "x", some 1⟩ := by
  have hcc : getCol? [("x", [(1 : ℝ), 2, 3]), ("charges", [3, 2, 1])] "charges"
      = some [3, 2, 1] := rfl
  have hfil : ([("x", [(1 : ℝ), 2, 3]), ("charges", [3, 2, 1])].filter
      (fun p => p.1 ≠ "charges")) = [("x", [(1 : ℝ), 2, 3])] := rfl
  have hser : chargesAbsSeries [("x", [(1 : ℝ), 2, 3]), ("charges", [3, 2, 1])]
      [3, 2, 1] = [("x", some 1)] := by
    unfold chargesAbsSeries
    rw [hfil, List.map_cons, List.map_nil, pearson_neg_example]
    norm_num
  unfold correlationAnalysis
  rw [hcc]
  dsimp only
  rw [hser]
  rfl

/-- C2 counterexample: on the frame x = [1,2,3], charges = [3,2,1]
the signed correlation of the strongest (only) predictor is -1, but
correlation_analysis stores 1, the absolute value, as
strongest_correlation; the stored value is not the signed one. -/
theorem strongest_correlation_unsigned_counterexample :
    correlationAnalysis [("x", [(1 : ℝ), 2, 3]), ("charges", [3, 2, 1])] =
      .ok ⟨[("x", some 1)], "x", some 1⟩ ∧
    pearson [(1 : ℝ), 2, 3] [3, 2, 1] = some (-1) ∧
    some (1 : ℝ) ≠ some (-1 : ℝ) := by
  refine ⟨corrAnalysis_concrete, pearson_neg_example, ?_⟩
  intro h
  exact absurd (Option.some_injective _ h) (by norm_num)

/-- C2 witness: on the concrete frame the strongest predictor is the
first (only) column of maximal absolute correlation, with stored
absolute value 1. -/
theorem strongest_predictor_witness :
    getCol? [("x", [(1 : ℝ), 2, 3]), ("charges", [3, 2, 1])] "charges"
      = some [3, 2, 1] ∧
    firstMax? (chargesAbsSeries [("x", [(1 : ℝ), 2, 3]), ("charges", [3, 2, 1])]
      [3, 2, 1]) = some ("x", some 1) := by
  have h := strongest_predictor_is_first_argmax
    [("x", [(1 : ℝ), 2, 3]), ("charges", [3, 2, 1])] [3, 2, 1]
    ⟨[("x", some 1)], "x", some 1⟩ rfl corrAnalysis_concrete
  exact ⟨rfl, h.1⟩

/-- A column with nonzero centered second moment has at least two
entries. -/
lemma two_le_length_of_ssC_ne_zero (g : List ℝ) (h : ssC g ≠ 0) :
    2 ≤ g.length := by
  match g with
  | [] => exact absurd rfl h
  | [x] =>
    exfalso
    apply h
    simp [ssC, meanR]
  | a :: b :: t => simp

/-- C8 counterexample: on the two identical CONSTANT groups
[100, 100, 100] of the specification example, the pooled variance is
0 and the t statistic is 0/0, i.e. NaN; the p-value is then NaN as
well, not approximately 1.0 (the significance flag is still false). -/
theorem identical_constant_groups_nan_counterexample :
    tStatInd [(100 : ℝ), 100, 100] [100, 100, 100] = .nan ∧
    pTwoSided halfSurvival (tStatInd [(100 : ℝ), 100, 100] [100, 100, 100])
      = .nan ∧
    significanceFlag (pTwoSided halfSurvival
      (tStatInd [(100 : ℝ), 100, 100] [100, 100, 100])) = false ∧
    FVal.nan ≠ FVal.fin 1 := by
  have hss : ssC [(100 : ℝ), 100, 100] = 0 := by norm_num [ssC, meanR]
  have ht : tStatInd [(100 : ℝ), 100, 100] [100, 100, 100] = .nan := by
    simp only [tStatInd]
    rw [if_neg (by norm_num)]
    rw [if_pos (by rw [hss]; norm_num)]
    rw [if_pos (sub_self _)]
  refine ⟨ht, by rw [ht]; rfl, by rw [ht]; rfl, fun h => FVal.noConfusion h⟩

/-- C8 amended: when the two compared groups are identical and
NON-constant, the t statistic is 0, the two-sided p-value is exactly
1 (using that the Student t survival function is 1/2 at 0), and the
significance flag is false; likewise the ANOVA over identical
non-constant groups has F statistic 0, p-value 1 (the F survival
function is 1 at 0), and a false significance flag.  When the groups
are constant the statistics are NaN (see the counterexample), and the
flag is still false. -/
theorem identical_groups_not_significant
    (sfT sfF : ℝ → ℝ) (hsfT : sfT 0 = 1 / 2) (hsfF : sfF 0 = 1)
    (a g : List ℝ) (k : ℕ) (hssa : ssC a ≠ 0) (hk : 2 ≤ k)
    (hssg : ssC g ≠ 0) :
    (tStatInd a a = .fin 0 ∧
     pTwoSided sfT (tStatInd a a) = .fin 1 ∧
     significanceFlag (pTwoSided sfT (tStatInd a a)) = false) ∧
    (fOneway (List.replicate k g) = .fin 0 ∧
     pOneWay sfF (fOneway (List.replicate k g)) = .fin 1 ∧
     significanceFlag (pOneWay sfF (fOneway (List.replicate k g))) = false) := by
  have ha2 : 2 ≤ a.length := two_le_length_of_ssC_ne_zero a hssa
  have hg2 : 2 ≤ g.length := two_le_length_of_ssC_ne_zero g hssg
  have hsspos : 0 < ssC a := lt_of_le_of_ne (ssC_nonneg a) (Ne.symm hssa)
  have hsgpos : 0 < ssC g := lt_of_le_of_ne (ssC_nonneg g) (Ne.symm hssg)
  have halen : (0 : ℝ) < (a.length : ℝ) := by
    exact_mod_cast (by omega : 0 < a.length)
  have ht : tStatInd a a = .fin 0 := by
    simp only [tStatInd]
    rw [if_neg (by omega)]
    have hdenpos : (0 : ℝ) < ((a.length + a.length - 2 : ℕ) : ℝ) := by
      exact_mod_cast (by omega : 0 < a.length + a.length - 2)
    have hsp2 : 0 < (ssC a + ssC a) / ((a.length + a.length - 2 : ℕ) : ℝ) :=
      div_pos (by linarith) hdenpos
    have hinv : 0 < 1 / (a.length : ℝ) + 1 / (a.length : ℝ) := by positivity
    rw [if_neg (ne_of_gt (mul_pos hsp2 hinv))]
    rw [sub_self, zero_div]
  have hsigfin1 : significanceFlag (.fin 1) = false := by
    simp only [significanceFlag]
    rw [decide_eq_false_iff_not]
    norm_num
  have hp : pTwoSided sfT (tStatInd a a) = .fin 1 := by
    rw [ht]
    simp only [pTwoSided, abs_zero, hsfT]
    norm_num
  refine ⟨⟨ht, hp, by rw [hp]; exact hsigfin1⟩, ?_⟩
  have hkpos : 0 < k := by omega
  have hglen : (0 : ℝ) < (g.length : ℝ) := by
    exact_mod_cast (by omega : 0 < g.length)
  have hF : fOneway (List.replicate k g) = .fin 0 := by
    simp only [fOneway]
    rw [if_neg ?hguard]
    case hguard =>
      rw [List.length_replicate]
      push_neg
      refine ⟨by omega, ?_⟩
      intro g0 hg0
      rw [List.eq_of_mem_replicate hg0]
      omega
    have hNsum : ((List.replicate k g).map List.length).sum = k * g.length := by
      rw [List.map_replicate, List.sum_replicate, smul_eq_mul]
    have hkg : ¬(((List.replicate k g).map List.length).sum ≤
        (List.replicate k g).length) := by
      rw [hNsum, List.length_replicate]
      have : 2 * k ≤ k * g.length := by
        calc 2 * k = k * 2 := by ring
        _ ≤ k * g.length := Nat.mul_le_mul_left k hg2
      omega
    rw [if_neg hkg]
    have hssbn : ssbn (List.replicate k g) = 0 := by
      unfold ssbn
      have hkr : (k : ℝ) ≠ 0 := Nat.cast_ne_zero.mpr (by omega)
      have hgr : (g.length : ℝ) ≠ 0 := ne_of_gt hglen
      simp only [List.map_replicate, List.sum_replicate, smul_eq_mul]
      push_cast
      field_simp
      ring
    have hsswn : sswn (List.replicate k g) = k * ssC g := by
      unfold sswn
      rw [List.map_replicate, List.sum_replicate, nsmul_eq_mul]
    have hmswpos : 0 < sswn (List.replicate k g) /
        ((((List.replicate k g).map List.length).sum -
          (List.replicate k g).length : ℕ) : ℝ) := by
      refine div_pos ?_ ?_
      · rw [hsswn]
        have : (0 : ℝ) < (k : ℝ) := by exact_mod_cast hkpos
        exact mul_pos this hsgpos
      · rw [hNsum, List.length_replicate]
        exact_mod_cast (by
          have : 2 * k ≤ k * g.length := by
            calc 2 * k = k * 2 := by ring
            _ ≤ k * g.length := Nat.mul_le_mul_left k hg2
          omega : 0 < k * g.length - k)
    rw [if_neg (ne_of_gt hmswpos)]
    rw [hssbn, zero_div, zero_div]
  have hpF : pOneWay sfF (fOneway (List.replicate k g)) = .fin 1 := by
    rw [hF]
    simp only [pOneWay, hsfF]
  exact ⟨hF, hpF, by rw [hpF]; exact hsigfin1⟩

/-- C8 witness: for the identical non-constant group [1, 2] (t-test
of the group against itself, ANOVA over two copies), the statistics
are 0, the p-values are 1, and both significance flags are false; the
concrete survival functions agree with the t and F ones at 0. -/
theorem identical_groups_not_significant_witness :
    halfSurvival 0 = 1 / 2 ∧ oneSurvival 0 = 1 ∧
    ssC [(1 : ℝ), 2] ≠ 0 ∧
    tStatInd [(1 : ℝ), 2] [1, 2] = .fin 0 ∧
    significanceFlag (pTwoSided halfSurvival (tStatInd [(1 : ℝ), 2] [1, 2]))
      = false ∧
    fOneway (List.replicate 2 [(1 : ℝ), 2]) = .fin 0 ∧
    significanceFlag (pOneWay oneSurvival
      (fOneway (List.replicate 2 [(1 : ℝ), 2]))) = false := by
  have hss : ssC [(1 : ℝ), 2] ≠ 0 := by norm_num [ssC, meanR]
  have h := identical_groups_not_significant halfSurvival oneSurvival rfl rfl
    [(1 : ℝ), 2] [(1 : ℝ), 2] 2 hss (by norm_num) hss
  exact ⟨rfl, rfl, hss, h.1.1, h.1.2.2, h.2.1, h.2.2.2⟩

end Pipeline
